import Mathlib

/-!
Verification development for the OpenIFEM incompressible Navier-Stokes solver
(files `source/mpi_navierstokes.cpp` — distributed Newton variant — and the
single-process IMEX variant `insimex.cpp`).

The development shallowly embeds the solver-orchestration code: vectors are
lists of rationals, sparse matrices either concrete rational matrices (where a
claim is about their values) or opaque types, and the deal.II library solvers
(conjugate gradient, FGMRES, MUMPS, ILU/Jacobi preconditioners, the error
estimator and the flagging utility) are oracle functions supplied as
parameters, since they are external collaborators of the code under scrutiny.
Each embedded definition is translated from the C++ source; definitions whose
name ends in `Claimed` follow the wording of the specification instead and are
compared with the source-derived definition.
-/

namespace OpenIFEM

/-! ### Shared scalar constants (from the C++ source) -/

/-- Relative-tolerance factor `1e-6` used by the inner CG `SolverControl`s. -/
def cgTolFactor : ℚ := 1 / 1000000

/-- Relative-tolerance factor `1e-8` used by the outer FGMRES `SolverControl`. -/
def gmresTolFactor : ℚ := 1 / 100000000

/-- Absolute residual floor `1e-14` in the Newton loop condition of
`ParallelNavierStokes::run_one_step`. -/
def newtonAbsFloor : ℚ := 1 / 100000000000000

/-! ### Vectors as lists of rationals -/

/-- Model of a deal.II / PETSc vector over one block. -/
abbrev Vec := List ℚ

/-- Componentwise sum, modelling `v += w`. -/
def vecAdd (a b : Vec) : Vec := List.zipWith (fun x y => x + y) a b

/-- Componentwise difference. -/
def vecSub (a b : Vec) : Vec := List.zipWith (fun x y => x - y) a b

/-- Scalar scaling, modelling `v *= c`. -/
def vecScale (c : ℚ) (a : Vec) : Vec := a.map (fun x => c * x)

/-- Zero vector of the same layout as `a`, modelling `v = 0` after `reinit`. -/
def vecZeroLike (a : Vec) : Vec := a.map (fun _ => (0 : ℚ))

/-- Two-block vector (velocity block 0, pressure block 1). -/
structure BlockVec where
  b0 : Vec
  b1 : Vec

/-! ### C1 — the block Schur preconditioner `vmult`

The inner solvers are deal.II library components, modelled as an oracle `cg`
that receives the matrix, the iteration budget and tolerance of its
`SolverControl`, a tag naming the preconditioner it was handed, the initial
guess (deal.II CG starts from the content of the destination vector) and the
right-hand side.  The MUMPS direct solver of the distributed variant is the
oracle `direct`.  `matVec` models `SparseMatrix::vmult`. -/

/-- Preconditioner handed to an inner CG solve, with the matrix it was
initialized from. -/
inductive PrecTag (MatT : Type) where
  | blockJacobi : MatT → PrecTag MatT
  | sparseILU : MatT → PrecTag MatT
  | identityPrec : PrecTag MatT

/-- Matrices and parameters captured by `BlockSchurPreconditioner`, together
with the library solver oracles. -/
structure VmultEnv (MatT : Type) where
  sysB00 : MatT
  sysB01 : MatT
  massB11 : MatT
  schurB11 : MatT
  gamma : ℚ
  viscosity : ℚ
  rho : ℚ
  dt : ℚ
  normV : Vec → ℚ
  cg : MatT → ℕ → ℚ → PrecTag MatT → Vec → Vec → Vec
  direct : MatT → Vec → Vec
  matVec : MatT → Vec → Vec

/-- Translation of `ParallelNavierStokes::BlockSchurPreconditioner::vmult`
(mpi_navierstokes.cpp lines 90–157).  `dst` is the incoming destination
block vector, whose blocks serve as CG initial guesses. -/
def mpiVmult {MatT : Type} (e : VmultEnv MatT) (dst src : BlockVec) : BlockVec :=
  let maxI := src.b1.length
  let tol := cgTolFactor * e.normV src.b1
  let tmp := vecZeroLike src.b1
  let tmp := e.cg e.massB11 maxI tol (PrecTag.blockJacobi e.massB11) tmp src.b1
  let tmp := vecScale (-(e.viscosity + e.gamma * e.rho)) tmp
  let dst1 := e.cg e.schurB11 maxI tol (PrecTag.blockJacobi e.schurB11) dst.b1 src.b1
  let dst1 := vecScale (-(e.rho / e.dt)) dst1
  let dst1 := vecAdd dst1 tmp
  let utmp := vecAdd (vecScale (-1) (e.matVec e.sysB01 dst1)) src.b0
  let dst0 := e.direct e.sysB00 utmp
  { b0 := dst0, b1 := dst1 }

/-- Translation of `InsIMEX::BlockSchurPreconditioner::vmult`
(insimex.cpp lines 82–148): same pressure-space stages but with `SparseILU`
preconditioners, and the velocity solve is an identity-preconditioned CG at
tolerance `1e-6 * ‖v0‖` with budget `v0.size()`. -/
def serialVmult {MatT : Type} (e : VmultEnv MatT) (dst src : BlockVec) : BlockVec :=
  let tmp := vecZeroLike src.b1
  let tmp := e.cg e.massB11 src.b1.length (cgTolFactor * e.normV src.b1)
    (PrecTag.sparseILU e.massB11) tmp src.b1
  let tmp := vecScale (-(e.viscosity + e.gamma * e.rho)) tmp
  let dst1 := e.cg e.schurB11 src.b1.length (cgTolFactor * e.normV src.b1)
    (PrecTag.sparseILU e.schurB11) dst.b1 src.b1
  let dst1 := vecScale (-(e.rho / e.dt)) dst1
  let dst1 := vecAdd dst1 tmp
  let utmp := vecAdd (vecScale (-1) (e.matVec e.sysB01 dst1)) src.b0
  let dst0 := e.cg e.sysB00 src.b0.length (cgTolFactor * e.normV src.b0)
    PrecTag.identityPrec dst.b0 utmp
  { b0 := dst0, b1 := dst1 }

/-- Statement of claim C1's algorithm for the distributed variant, written in
the claim's order: the `M_p` solve scaled by `-(viscosity + gamma*rho)`, the
`S_m` solve scaled by `-rho/dt`, their sum as `u1`, then `utmp = v0 - Bᵀ u1`,
then the direct velocity solve. -/
def mpiVmultClaimed {MatT : Type} (e : VmultEnv MatT) (dst src : BlockVec) : BlockVec :=
  let tolP := cgTolFactor * e.normV src.b1
  let u1mp := vecScale (-(e.viscosity + e.gamma * e.rho))
    (e.cg e.massB11 src.b1.length tolP (PrecTag.blockJacobi e.massB11) (vecZeroLike src.b1) src.b1)
  let u1sm := vecScale (-(e.rho / e.dt))
    (e.cg e.schurB11 src.b1.length tolP (PrecTag.blockJacobi e.schurB11) dst.b1 src.b1)
  let u1 := vecAdd u1mp u1sm
  let utmp := vecSub src.b0 (e.matVec e.sysB01 u1)
  { b0 := e.direct e.sysB00 utmp, b1 := u1 }

/-- Statement of claim C1's algorithm for the single-process variant: the same
pressure stages with the serial (ILU) preconditioners, and an iterative CG
velocity solve in step 5. -/
def serialVmultClaimed {MatT : Type} (e : VmultEnv MatT) (dst src : BlockVec) : BlockVec :=
  let tolP := cgTolFactor * e.normV src.b1
  let u1mp := vecScale (-(e.viscosity + e.gamma * e.rho))
    (e.cg e.massB11 src.b1.length tolP (PrecTag.sparseILU e.massB11) (vecZeroLike src.b1) src.b1)
  let u1sm := vecScale (-(e.rho / e.dt))
    (e.cg e.schurB11 src.b1.length tolP (PrecTag.sparseILU e.schurB11) dst.b1 src.b1)
  let u1 := vecAdd u1mp u1sm
  let utmp := vecSub src.b0 (e.matVec e.sysB01 u1)
  { b0 := e.cg e.sysB00 src.b0.length (cgTolFactor * e.normV src.b0)
      PrecTag.identityPrec dst.b0 utmp,
    b1 := u1 }

/-! ### C2 / C6 — the Newton step controller (`ParallelNavierStokes::run_one_step`)

Assembly, the linear solve and the constraint objects are modelled as oracles;
the loop control flow, the constraint-set selection flags and the residual
bookkeeping are translated from the source. -/

/-- Oracles consumed by one Newton iteration: `assembleRhs` returns the
assembled `system_rhs` given the constraint flag, the evaluation point and the
present solution; `solveUpdate` returns `newton_update` after `solve`
(including the `constraints_used.distribute` done inside `solve` with the same
flag); `distributeNZ` is `nonzero_constraints.distribute`. -/
structure NewtonEnv (V : Type) where
  assembleRhs : Bool → V → V → V
  solveUpdate : Bool → V → V
  distributeNZ : V → V
  addV : V → V → V
  normV : V → ℚ

/-- One body execution of the Newton loop (mpi_navierstokes.cpp lines
724–760): assemble and solve with the nonzero constraints iff
`apply_nonzero_constraints && outer_iteration == 0`, measure the residual,
then add the correction to the evaluation point and re-apply the nonzero
constraint set.  Returns the new evaluation point and `current_residual`. -/
def newtonIterate {V : Type} (env : NewtonEnv V) (applyNZ : Bool) (iter : ℕ)
    (evalPt present : V) : V × ℚ :=
  let useNZ := applyNZ && iter == 0
  let rhs := env.assembleRhs useNZ evalPt present
  let upd := env.solveUpdate useNZ rhs
  let cur := env.normV rhs
  (env.distributeNZ (env.addV evalPt upd), cur)

/-- Loop guard of `run_one_step`:
`relative_residual > tolerance && current_residual > 1e-14`. -/
def newtonLoopGuard (tolerance rel cur : ℚ) : Bool :=
  decide (tolerance < rel) && decide (newtonAbsFloor < cur)

/-- Fuel-indexed translation of the Newton `while` loop (mpi_navierstokes.cpp
lines 719–761), including the `AssertThrow(outer_iteration < max_iteration)`
fatal check.  Returns the final evaluation point (committed to
`present_solution` on exit) and the number of iterations performed. -/
def newtonLoop {V : Type} (env : NewtonEnv V) (applyNZ : Bool) (tol : ℚ)
    (maxIter : ℕ) :
    ℕ → ℕ → ℚ → ℚ → ℚ → V → V → Except String (V × ℕ)
  | 0, _, _, _, _, _, _ => Except.error "out of fuel"
  | fuel + 1, iter, rel, cur, initRes, evalPt, present =>
    if newtonLoopGuard tol rel cur then
      if iter < maxIter then
        let r := newtonIterate env applyNZ iter evalPt present
        let init2 := if iter == 0 then r.2 else initRes
        newtonLoop env applyNZ tol maxIter fuel (iter + 1) (r.2 / init2) r.2 init2 r.1 present
      else Except.error "Too many Newton iterations!"
    else Except.ok (evalPt, iter)

/-- Flag passed by `ParallelNavierStokes::run` to `run_one_step` for the step
whose (post-increment) index is `timestep`: `true` only for the very first
time step. -/
def newtonRunApplyNZ (timestep : ℕ) : Bool := timestep == 1

/-- Trivial Newton oracle over `Unit`, used to exhibit concrete loop runs. -/
def newtonEnvUnit : NewtonEnv Unit where
  assembleRhs := fun _ _ _ => ()
  solveUpdate := fun _ _ => ()
  distributeNZ := fun _ => ()
  addV := fun _ _ => ()
  normV := fun _ => 0

/-! ### C3 — the outer FGMRES solve (`solve` in both variants) -/

/-- Oracle for the library `SolverFGMRES::solve`: given the `SolverControl`
iteration budget, its tolerance and the right-hand side, it reports whether it
converged, `last_step()` and `last_value()`. -/
structure GmresOracle (V : Type) where
  run : ℕ → ℚ → V → Bool × ℕ × ℚ

/-- Translation of `ParallelNavierStokes::solve` (mpi_navierstokes.cpp lines
606–637): the `SolverControl` is built with budget `system_matrix.m()` — the
total row count `dofU + dofP` — and tolerance `1e-8 * ‖system_rhs‖`;
non-convergence inside the library solver is fatal; on success the pair
`(last_step, last_value)` is returned. -/
def mpiSolveRun {V : Type} (g : GmresOracle V) (normV : V → ℚ) (dofU dofP : ℕ)
    (rhs : V) : Except String (ℕ × ℚ) :=
  let maxIter := dofU + dofP
  let tol := gmresTolFactor * normV rhs
  let r := g.run maxIter tol rhs
  if r.1 then Except.ok (r.2.1, r.2.2) else Except.error "NoConvergence"

/-- Translation of `InsIMEX::solve` (insimex.cpp lines 544–574): identical
`SolverControl` setup (`system_matrix.m()` total rows, `1e-8 * ‖rhs‖`) and
identical return value. -/
def serialSolveRun {V : Type} (g : GmresOracle V) (normV : V → ℚ) (dofU dofP : ℕ)
    (rhs : V) : Except String (ℕ × ℚ) :=
  let maxIter := dofU + dofP
  let tol := gmresTolFactor * normV rhs
  let r := g.run maxIter tol rhs
  if r.1 then Except.ok (r.2.1, r.2.2) else Except.error "NoConvergence"

/-- Claim C3's solve as stated: an iteration budget equal to the block-0
(velocity) DOF count only. -/
def solveClaimedBudgetU {V : Type} (g : GmresOracle V) (normV : V → ℚ) (dofU : ℕ)
    (rhs : V) : Except String (ℕ × ℚ) :=
  let r := g.run dofU (gmresTolFactor * normV rhs) rhs
  if r.1 then Except.ok (r.2.1, r.2.2) else Except.error "NoConvergence"

/-- Amended claim C3's solve: relative tolerance `1e-8 · ‖rhs‖`, an iteration
budget equal to the total DOF count (velocity block plus pressure block, the
row count of the full block matrix), fatal on non-convergence, returning the
outer iteration count and the final residual value. -/
def solveClaimedTotal {V : Type} (g : GmresOracle V) (normV : V → ℚ)
    (dofU dofP : ℕ) (rhs : V) : Except String (ℕ × ℚ) :=
  let budget := dofU + dofP
  let r := g.run budget (gmresTolFactor * normV rhs) rhs
  if r.1 then Except.ok (r.2.1, r.2.2) else Except.error "NoConvergence"

/-- Probe oracle that reports the iteration budget it was handed as its
`last_step`, converging immediately. -/
def gmresProbe : GmresOracle Unit := { run := fun m _ _ => (true, m, 0) }

/-- Trivial norm for the probe runs. -/
def normProbe : Unit → ℚ := fun _ => 0

/-! ### C4 — construction of the Schur surrogate in the
`BlockSchurPreconditioner` constructor -/

/-- Concrete rational matrix (list of rows). -/
abbrev MatQ := List (List ℚ)

/-- Entry `(i, j)` of a matrix, zero outside the stored range. -/
def entryAt (m : MatQ) (i j : ℕ) : ℚ := (m.getD i []).getD j 0

/-- Column count of a matrix (length of its first row). -/
def matCols (m : MatQ) : ℕ := (m.getD 0 []).length

/-- deal.II Jacobi preconditioner application
(`precondition_Jacobi` / `PreconditionJacobi::vmult`): `dst_i = src_i / A_ii`. -/
def jacobiVmult (m : MatQ) (v : Vec) : Vec :=
  (List.range m.length).map (fun i => v.getD i 0 / entryAt m i i)

/-- Weighted row-column product used by `mmult` with a diagonal weight. -/
def dotDiag (arow : Vec) (w : Vec) (b : MatQ) (j : ℕ) : ℚ :=
  ((List.range b.length).map
    (fun k => arow.getD k 0 * w.getD k 0 * entryAt b k j)).foldr (fun x y => x + y) 0

/-- deal.II `A.mmult(C, B, w)`: `C = A · diag(w) · B`. -/
def mmultDiag (a b : MatQ) (w : Vec) : MatQ :=
  (List.range a.length).map (fun i =>
    (List.range (matCols b)).map (fun j => dotDiag (a.getD i []) w b j))

/-- Translation of the value computation in the `BlockSchurPreconditioner`
constructors (mpi_navierstokes.cpp lines 46–84, insimex.cpp lines 45–76):
`tmp1 = 1; tmp2 = jacobi(mass block00) · tmp1;
mass_schur = system block10 · diag(tmp2) · system block01`. -/
def schurFromMass (sysB10 sysB01 massB00 : MatQ) : MatQ :=
  let tmp1 : Vec := List.replicate massB00.length 1
  let tmp2 := jacobiVmult massB00 tmp1
  mmultDiag sysB10 sysB01 tmp2

/-- The `mmult` call takes a rebuild-sparsity-pattern flag; when it is false
the preset pattern (computed once in `initialize_system` via
`compute_mmult_pattern`) is reused, otherwise a fresh pattern would be
derived. -/
def schurBuildCall {Pat : Type} (rebuildPattern : Bool) (preset fresh : Pat)
    (sysB10 sysB01 massB00 : MatQ) : Pat × MatQ :=
  ((if rebuildPattern then fresh else preset), schurFromMass sysB10 sysB01 massB00)

/-- The constructor's actual call: the source passes `false` for the rebuild
flag (explicitly in the serial variant, by the preset PETSc pattern in the
distributed one). -/
def schurAtConstruction {Pat : Type} (preset fresh : Pat)
    (sysB10 sysB01 massB00 : MatQ) : Pat × MatQ :=
  schurBuildCall false preset fresh sysB10 sysB01 massB00

/-- Claim C4's matrix `B · diag(velocity mass block)⁻¹ · Bᵀ`, with entries
`Σ_k B_{ik} (M_{kk})⁻¹ (Bᵀ)_{kj}`. -/
def schurClaimed (sysB10 sysB01 massB00 : MatQ) : MatQ :=
  (List.range sysB10.length).map (fun i =>
    (List.range (matCols sysB01)).map (fun j =>
      ((List.range sysB01.length).map (fun k =>
        entryAt sysB10 i k * (entryAt massB00 k k)⁻¹ * entryAt sysB01 k j)).foldr
        (fun x y => x + y) 0))

/-! ### C5 — the IMEX time-step controller (`InsIMEX::run_one_step`)

The state machine is modelled over abstract matrix/vector/preconditioner
types; assembly values, the FGMRES solve and the constraint objects are
oracles, while the per-step flags, the matrix-rebuild suppression and the
refinement-triggered reinitialization are translated from the source. -/

/-- Oracles of the IMEX controller.  `sysAssembled`/`massAssembled`/
`rhsAssembled` give the result of a full assembly pass from the constraint
flag and the present solution (`rhsAssembled` additionally depends on whether
the matrix path or the rhs-only path distributed it); `freshSys`/`freshMass`
are the value-empty matrices `initialize_system` creates; `refinePresent` is
the net solution-transfer effect of `refine_mesh` on the present solution. -/
structure ImexEnv (M P V : Type) where
  zeroVec : V
  addVec : V → V → V
  sysAssembled : Bool → V → M
  massAssembled : Bool → V → M
  rhsAssembled : Bool → Bool → V → V
  mkPrecond : M → M → P
  gmres : M → Option P → V → V
  distributeFlag : Bool → V → V
  freshSys : M
  freshMass : M
  refinePresent : V → V
  timeToRefine : ℕ → Bool
  timeToOutput : ℕ → Bool

/-- Mutable state of the IMEX controller across time steps. -/
structure ImexState (M P V : Type) where
  timestep : ℕ
  sys : M
  mass : M
  rhs : V
  present : V
  increment : V
  precond : Option P

/-- Flag `apply_nonzero_constraints = (time.get_timestep() == 1)` (insimex.cpp
line 644). -/
def imexUseNZ (t : ℕ) : Bool := t == 1

/-- Flag `assemble_system = (time.get_timestep() < 3)` (insimex.cpp line
647). -/
def imexDoAssemble (t : ℕ) : Bool := decide (t < 3)

/-- Translation of `InsIMEX::assemble` at the controller level (insimex.cpp
lines 359–542): when `assemble_system` holds the matrices are zeroed and
reassembled along with the rhs; otherwise only the rhs is rebuilt and the
matrices are left untouched. -/
def imexAssembleStep {M P V : Type} (env : ImexEnv M P V)
    (useNZ assembleSystem : Bool) (s : ImexState M P V) : ImexState M P V :=
  if assembleSystem then
    { s with sys := env.sysAssembled useNZ s.present,
             mass := env.massAssembled useNZ s.present,
             rhs := env.rhsAssembled useNZ true s.present }
  else
    { s with rhs := env.rhsAssembled useNZ false s.present }

/-- Translation of `InsIMEX::solve` at the controller level (insimex.cpp lines
544–574): the preconditioner is (re)constructed only when `assemble_system`
holds; FGMRES produces the increment, to which the selected constraint set is
applied. -/
def imexSolveStep {M P V : Type} (env : ImexEnv M P V)
    (useNZ assembleSystem : Bool) (s : ImexState M P V) : ImexState M P V :=
  if assembleSystem then
    { s with precond := some (env.mkPrecond s.sys s.mass),
             increment := env.distributeFlag useNZ
               (env.gmres s.sys (some (env.mkPrecond s.sys s.mass)) s.rhs) }
  else
    { s with increment := env.distributeFlag useNZ (env.gmres s.sys s.precond s.rhs) }

/-- Effect of `refine_mesh` on the controller state (insimex.cpp lines
576–623): `initialize_system` recreates value-empty matrices and vectors and
resets the preconditioner, and the present solution becomes the transferred
interpolant. -/
def imexRefineReset {M P V : Type} (env : ImexEnv M P V) (s : ImexState M P V) :
    ImexState M P V :=
  { s with sys := env.freshSys, mass := env.freshMass, rhs := env.zeroVec,
           increment := env.zeroVec, precond := none,
           present := env.refinePresent s.present }

/-- First half of `InsIMEX::run_one_step` (insimex.cpp lines 636–648): time
increment, increment reset, flag computation and the assemble call.  Stops
just before `solve`, so the state it returns is the one the solve observes. -/
def imexStepPre {M P V : Type} (env : ImexEnv M P V) (s : ImexState M P V) :
    ImexState M P V :=
  imexAssembleStep env (imexUseNZ (s.timestep + 1)) (imexDoAssemble (s.timestep + 1))
    { s with timestep := s.timestep + 1, increment := env.zeroVec }

/-- Second half of `InsIMEX::run_one_step` (insimex.cpp lines 649–666): the
solve, the present-solution update and the conditional mesh refinement. -/
def imexStepPost {M P V : Type} (env : ImexEnv M P V) (s : ImexState M P V) :
    ImexState M P V :=
  let s1 := imexSolveStep env (imexUseNZ s.timestep) (imexDoAssemble s.timestep) s
  let s2 := { s1 with present := env.addVec s1.present s1.increment }
  if env.timeToRefine s2.timestep then imexRefineReset env s2 else s2

/-- One full `run_one_step`. -/
def imexRunOneStep {M P V : Type} (env : ImexEnv M P V) (s : ImexState M P V) :
    ImexState M P V :=
  imexStepPost env (imexStepPre env s)

/-- Iterated time stepping from an initial state. -/
def imexRunSteps {M P V : Type} (env : ImexEnv M P V) (s : ImexState M P V) :
    ℕ → ImexState M P V
  | 0 => s
  | n + 1 => imexRunOneStep env (imexRunSteps env s n)

/-- State observed by the linear solve of time step `n + 1` (counting from a
start state with `timestep = 0`): `n` completed steps followed by the
pre-solve half of the next step. -/
def imexPreState {M P V : Type} (env : ImexEnv M P V) (s0 : ImexState M P V)
    (n : ℕ) : ImexState M P V :=
  imexStepPre env (imexRunSteps env s0 n)

/-- Concrete IMEX oracle whose refinement cadence triggers at time step 2 and
whose assembled and fresh matrices are distinguishable. -/
def imexEnvCex : ImexEnv ℕ Unit Unit where
  zeroVec := ()
  addVec := fun _ _ => ()
  sysAssembled := fun _ _ => 1
  massAssembled := fun _ _ => 1
  rhsAssembled := fun _ _ _ => ()
  mkPrecond := fun _ _ => ()
  gmres := fun _ _ _ => ()
  distributeFlag := fun _ v => v
  freshSys := 0
  freshMass := 0
  refinePresent := fun v => v
  timeToRefine := fun t => t == 2
  timeToOutput := fun _ => false

/-- Concrete IMEX oracle that never refines. -/
def imexEnvW : ImexEnv ℕ Unit Unit where
  zeroVec := ()
  addVec := fun _ _ => ()
  sysAssembled := fun _ _ => 5
  massAssembled := fun _ _ => 7
  rhsAssembled := fun _ _ _ => ()
  mkPrecond := fun _ _ => ()
  gmres := fun _ _ _ => ()
  distributeFlag := fun _ v => v
  freshSys := 0
  freshMass := 0
  refinePresent := fun v => v
  timeToRefine := fun _ => false
  timeToOutput := fun _ => false

/-- Initial controller state before the first time step. -/
def imexState0 : ImexState ℕ Unit Unit where
  timestep := 0
  sys := 0
  mass := 0
  rhs := ()
  present := ()
  increment := ()
  precond := none

/-! ### C7 — the adaptive-refinement orchestrator (`refine_mesh`, both
variants) -/

/-- Oracles of `refine_mesh`: the Kelly estimator, the flag-and-clear stage
(detailed separately for C8), the `SolutionTransfer` snapshot/interpolation,
`execute_coarsening_and_refinement`, and the rebuild helpers `setup_dofs`,
`make_constraints` and `initialize_system`. -/
structure RefineEnv (Msh Dof Cst Mats Snap V E : Type) where
  estimate : Dof → V → E
  flagClear : Msh → E → ℕ → ℕ → Msh
  prepareSnapshot : V → Snap
  executeChange : Msh → Msh
  makeDofs : Msh → Dof
  makeNZ : Dof → Cst
  makeZero : Dof → Cst
  freshMats : Dof → Mats
  interpolateTo : Snap → Dof → V
  distributeCst : Cst → V → V

/-- Solver state touched by `refine_mesh`. -/
structure NSState (Msh Dof Cst Mats V : Type) where
  mesh : Msh
  dofs : Dof
  nzCst : Cst
  zCst : Cst
  mats : Mats
  present : V

/-- Translation of `refine_mesh` (mpi_navierstokes.cpp lines 639–695,
insimex.cpp lines 576–623): estimate, flag and clear, snapshot the present
solution, execute the topology change, rebuild DOFs, both constraint sets and
all matrices/vectors from scratch, interpolate the snapshot onto the new
layout, and apply the new nonzero constraints to the interpolant, which
becomes the present solution. -/
def refineMeshRun {Msh Dof Cst Mats Snap V E : Type}
    (env : RefineEnv Msh Dof Cst Mats Snap V E) (minL maxL : ℕ)
    (s : NSState Msh Dof Cst Mats V) : NSState Msh Dof Cst Mats V :=
  let err := env.estimate s.dofs s.present
  let mesh1 := env.flagClear s.mesh err minL maxL
  let snap := env.prepareSnapshot s.present
  let mesh2 := env.executeChange mesh1
  let d := env.makeDofs mesh2
  let nz := env.makeNZ d
  let z := env.makeZero d
  let mats := env.freshMats d
  let interp := env.interpolateTo snap d
  { mesh := mesh2, dofs := d, nzCst := nz, zCst := z, mats := mats,
    present := env.distributeCst nz interp }

/-- Claim C7's sequence in the claim's wording: snapshot the current field,
execute the coarsening/refinement, rebuild DOF layout, both constraint sets
and all matrices from scratch, interpolate the snapshot onto the new layout,
re-apply the nonzero constraint set; on return the present solution is that
constrained interpolant. -/
def refineMeshClaimed {Msh Dof Cst Mats Snap V E : Type}
    (env : RefineEnv Msh Dof Cst Mats Snap V E) (minL maxL : ℕ)
    (s : NSState Msh Dof Cst Mats V) : NSState Msh Dof Cst Mats V :=
  let snap := env.prepareSnapshot s.present
  let mesh2 := env.executeChange
    (env.flagClear s.mesh (env.estimate s.dofs s.present) minL maxL)
  let d := env.makeDofs mesh2
  { mesh := mesh2, dofs := d, nzCst := env.makeNZ d, zCst := env.makeZero d,
    mats := env.freshMats d,
    present := env.distributeCst (env.makeNZ d) (env.interpolateTo snap d) }

/-! ### C8 — refinement flagging fractions and the grid-level invariant -/

/-- Active cell of the triangulation: its level and its refine/coarsen
flags. -/
structure MCell where
  level : ℕ
  refFlag : Bool
  coarFlag : Bool
deriving DecidableEq

/-- Triangulation as a list of active cells. -/
abbrev MeshC := List MCell

/-- Install the per-cell flags produced by the flagging utility. -/
def applyFlagPairs (mesh : MeshC) (fl : List (Bool × Bool)) : MeshC :=
  List.zipWith (fun c p => { c with refFlag := p.1, coarFlag := p.2 }) mesh fl

/-- Finest level present in the mesh. -/
def meshMaxLevel (mesh : MeshC) : ℕ := mesh.foldr (fun c m => max c.level m) 0

/-- deal.II `Triangulation::n_levels()`: one more than the finest level. -/
def meshNLevels (mesh : MeshC) : ℕ := meshMaxLevel mesh + 1

/-- Per-cell effect of `clear_refine_flag` on the cells visited by the
max-level loop (those at level ≥ `maxL`). -/
def clearRefCell (maxL : ℕ) (c : MCell) : MCell :=
  if maxL ≤ c.level then { c with refFlag := false } else c

/-- Per-cell effect of `clear_coarsen_flag` on the cells visited by the
min-level loop (those at level exactly `minL`). -/
def clearCoarCell (minL : ℕ) (c : MCell) : MCell :=
  if c.level = minL then { c with coarFlag := false } else c

/-- Translation of the guarded loop `if (n_levels() > max_grid_level) for cell
in begin_active(max_grid_level)..end(): clear_refine_flag()`: clears the
refine flag of every active cell at level ≥ `maxL`. -/
def clearRefineAtOrAbove (maxL : ℕ) (mesh : MeshC) : MeshC :=
  if maxL < meshNLevels mesh then mesh.map (clearRefCell maxL) else mesh

/-- Translation of the loop `for cell in
begin_active(min_grid_level)..end_active(min_grid_level):
clear_coarsen_flag()`: clears the coarsen flag of every cell at exactly level
`minL`. -/
def clearCoarsenAtLevel (minL : ℕ) (mesh : MeshC) : MeshC :=
  mesh.map (clearCoarCell minL)

/-- Flagging stage of `refine_mesh`: the library utility
`refine_and_coarsen_fixed_fraction` (an oracle `flagger`) is invoked with
refine fraction 0.6 and coarsen fraction 0.4, then the level-bound clearing
loops run. -/
def refineFlagPhase (flagger : List ℚ → ℚ → ℚ → List (Bool × Bool))
    (errs : List ℚ) (minL maxL : ℕ) (mesh : MeshC) : MeshC :=
  clearCoarsenAtLevel minL
    (clearRefineAtOrAbove maxL (applyFlagPairs mesh (flagger errs 0.6 0.4)))

/-- Effect of `execute_coarsening_and_refinement` on cell levels: a
refine-flagged cell is replaced by children one level finer, a
coarsen-flagged cell (not at level 0) may move one level coarser, all other
cells keep their level; all flags are consumed. -/
def execCell (c : MCell) : MCell :=
  if c.refFlag then { level := c.level + 1, refFlag := false, coarFlag := false }
  else if c.coarFlag && decide (0 < c.level) then
    { level := c.level - 1, refFlag := false, coarFlag := false }
  else { c with refFlag := false, coarFlag := false }

/-- `execute_coarsening_and_refinement` applied cellwise. -/
def execFlags (mesh : MeshC) : MeshC := mesh.map execCell

/-- Concrete mesh used to witness the level invariant. -/
def meshW : MeshC := [⟨1, false, false⟩, ⟨3, false, false⟩]

/-- Concrete flagging oracle used to witness the level invariant. -/
def flaggerW : List ℚ → ℚ → ℚ → List (Bool × Bool) :=
  fun _ _ _ => [(true, false), (true, true)]

/-! ### C9 — Dirichlet boundary-condition flag validation
(`make_constraints`, both variants) -/

/-- One Dirichlet boundary-condition entry from the configuration. -/
structure BCEntry where
  bid : ℕ
  flag : ℕ
  value : List ℚ

/-- Translation of the `switch (flag)` of `make_constraints`
(mpi_navierstokes.cpp lines 264–308, insimex.cpp lines 232–276): flags
1..7 select the component mask (1-x, 2-y, 3-xy, 4-z, 5-xz, 6-yz, 7-xyz) and
copy the configured values; any other flag hits
`AssertThrow(false, "Unrecogonized component flag!")`. -/
def maskOfFlag (dim : ℕ) (flag : ℕ) (value : List ℚ) :
    Except String (List Bool × List ℚ) :=
  let mask0 : List Bool := List.replicate (dim + 1) false
  let aug0 : List ℚ := List.replicate (dim + 1) 0
  if flag = 1 then Except.ok (mask0.set 0 true, aug0.set 0 (value.getD 0 0))
  else if flag = 2 then Except.ok (mask0.set 1 true, aug0.set 1 (value.getD 0 0))
  else if flag = 3 then
    Except.ok ((mask0.set 0 true).set 1 true,
      (aug0.set 0 (value.getD 0 0)).set 1 (value.getD 1 0))
  else if flag = 4 then Except.ok (mask0.set 2 true, aug0.set 2 (value.getD 0 0))
  else if flag = 5 then
    Except.ok ((mask0.set 0 true).set 2 true,
      (aug0.set 0 (value.getD 0 0)).set 2 (value.getD 1 0))
  else if flag = 6 then
    Except.ok ((mask0.set 1 true).set 2 true,
      (aug0.set 1 (value.getD 0 0)).set 2 (value.getD 1 0))
  else if flag = 7 then
    Except.ok (((mask0.set 0 true).set 1 true).set 2 true,
      ((aug0.set 0 (value.getD 0 0)).set 1 (value.getD 1 0)).set 2 (value.getD 2 0))
  else Except.error "Unrecogonized component flag!"

/-- Process the configured boundary-condition entries in order, aborting at
the first unrecognized flag (the `AssertThrow` fires before any later entry is
processed and before the constraint sets are closed). -/
def constraintEntries (dim : ℕ) :
    List BCEntry → Except String (List (ℕ × List Bool × List ℚ))
  | [] => Except.ok []
  | e :: rest =>
    match maskOfFlag dim e.flag e.value with
    | Except.error s => Except.error s
    | Except.ok p =>
      match constraintEntries dim rest with
      | Except.error s => Except.error s
      | Except.ok l => Except.ok ((e.bid, p) :: l)

/-- Result of `make_constraints`: the interpolated boundary values recorded
for the nonzero and zero constraint sets, and whether `close()` ran. -/
structure CstBuild where
  nzOps : List (ℕ × List Bool × List ℚ)
  zOps : List (ℕ × List Bool)
  closed : Bool

/-- Translation of `make_constraints`: every entry's mask is computed through
the flag switch; only after all entries succeed are both constraint sets
closed. -/
def makeConstraintsRun (dim : ℕ) (bcs : List BCEntry) : Except String CstBuild :=
  match constraintEntries dim bcs with
  | Except.error s => Except.error s
  | Except.ok l =>
    Except.ok { nzOps := l, zOps := l.map (fun x => (x.1, x.2.1)), closed := true }

/-- Concrete boundary-condition list with all seven valid flags. -/
def bcsW : List BCEntry :=
  [⟨0, 1, [1]⟩, ⟨0, 2, [2]⟩, ⟨1, 3, [1, 2]⟩, ⟨1, 4, [3]⟩, ⟨2, 5, [1, 3]⟩,
   ⟨2, 6, [2, 3]⟩, ⟨3, 7, [1, 2, 3]⟩]

/-! ### C10 — the rhs-only assembly path of `InsIMEX::assemble` -/

/-- Cell-level oracles of `InsIMEX::assemble`: local contributions (computed
from the present solution) and the constraint-mediated distribution calls.
`distribMatRhs` is `distribute_local_to_global(local_matrix, local_rhs, ...)`
into matrix and rhs, `distribMass` the mass-matrix distribution, and
`distribRhsOnly` the rhs-only `distribute_local_to_global(local_rhs, ...)`. -/
structure AsmEnv (MatT V L Cid : Type) where
  cells : List Cid
  localMatAt : Cid → V → L
  localMassAt : Cid → L
  localRhsAt : Cid → V → L
  distribMatRhs : Bool → L → L → MatT × V → MatT × V
  distribMass : Bool → L → MatT → MatT
  distribRhsOnly : Bool → L → V → V
  zeroMatLike : MatT → MatT
  zeroVecLike : V → V

/-- Translation of `InsIMEX::assemble` (insimex.cpp lines 359–542): matrices
are zeroed only when `assemble_system` holds, the rhs is always zeroed; the
cell loop distributes matrix+rhs and mass when `assemble_system` holds and
only the local rhs otherwise.  Returns (system matrix, mass matrix, rhs). -/
def imexAssembleCells {MatT V L Cid : Type} (env : AsmEnv MatT V L Cid)
    (useNZ assembleSystem : Bool) (present : V) (sys mass : MatT) (rhs : V) :
    MatT × MatT × V :=
  let start : MatT × MatT × V :=
    if assembleSystem then (env.zeroMatLike sys, env.zeroMatLike mass, env.zeroVecLike rhs)
    else (sys, mass, env.zeroVecLike rhs)
  env.cells.foldl
    (fun acc c =>
      if assembleSystem then
        let mr := env.distribMatRhs useNZ (env.localMatAt c present)
          (env.localRhsAt c present) (acc.1, acc.2.2)
        (mr.1, env.distribMass useNZ (env.localMassAt c) acc.2.1, mr.2)
      else
        (acc.1, acc.2.1, env.distribRhsOnly useNZ (env.localRhsAt c present) acc.2.2))
    start

/-! ### Theorems -/

/-- Componentwise vector addition is commutative. -/
theorem vecAdd_comm (a b : Vec) : vecAdd a b = vecAdd b a := by
  induction a generalizing b with
  | nil => cases b <;> simp [vecAdd]
  | cons x xs ih =>
    cases b with
    | nil => simp [vecAdd]
    | cons y ys =>
      simp only [vecAdd, List.zipWith] at *
      exact congrArg₂ _ (add_comm x y) (ih ys)

/-- Negating and adding on the left is subtraction: the source's
`utmp = -(Bᵀ u1); utmp += v0` equals the claim's `v0 - Bᵀ u1`. -/
theorem vecNegAdd (a b : Vec) : vecAdd (vecScale (-1) b) a = vecSub a b := by
  induction a generalizing b with
  | nil => cases b <;> simp [vecAdd, vecSub, vecScale]
  | cons x xs ih =>
    cases b with
    | nil => simp [vecAdd, vecSub, vecScale]
    | cons y ys =>
      simp only [vecAdd, vecSub, vecScale, List.map, List.zipWith] at *
      exact congrArg₂ _ (by ring) (ih ys)

/-- Claim C1: one application of the block Schur preconditioner computes, in
order, the `M_p` pressure solve (CG, tolerance `1e-6·‖v1‖`, scaled by
`-(viscosity+gamma·rho)`), the `S_m` pressure solve (CG, same tolerance,
scaled by `-rho/dt`), their sum as `u1`, then `utmp = v0 - Bᵀu1`, then the
velocity solve for `u0` (direct in the distributed variant, CG in the
single-process variant). -/
theorem C1_block_preconditioner_vmult {MatT : Type} (e : VmultEnv MatT)
    (dst src : BlockVec) :
    mpiVmult e dst src = mpiVmultClaimed e dst src
      ∧ serialVmult e dst src = serialVmultClaimed e dst src := by
  constructor
  · simp only [mpiVmult, mpiVmultClaimed, vecNegAdd]
    rw [vecAdd_comm]
  · simp only [serialVmult, serialVmultClaimed, vecNegAdd]
    rw [vecAdd_comm]

/-- Claim C2 as stated, refuted: the claim says the Newton loop stops exactly
when relative residual ≤ tolerance AND absolute residual < 1e-14; at
tolerance 1, relative residual 0 and absolute residual 1 the code's loop stops
immediately although the absolute residual is far above the floor. -/
theorem C2_counterexample :
    ¬ (∀ (V : Type) (env : NewtonEnv V) (applyNZ : Bool) (tol : ℚ)
        (maxIter fuel iter : ℕ) (rel cur initRes : ℚ) (evalPt present : V),
        (newtonLoop env applyNZ tol maxIter (fuel + 1) iter rel cur initRes evalPt present
            = Except.ok (evalPt, iter))
          ↔ (rel ≤ tol ∧ cur < newtonAbsFloor)) := by
  intro h
  have h1 := (h Unit newtonEnvUnit true 1 5 5 0 0 1 1 () ()).mp rfl
  exact absurd h1.2 (by norm_num [newtonAbsFloor])

/-- Claim C2 amended: within one time step the Newton loop stops exactly when
relative residual ≤ tolerance OR absolute residual ≤ 1e-14; while both are
above their bounds, another assemble/solve/update iteration is performed,
subject to the max-iteration fatal check. -/
theorem C2_newton_stop_condition {V : Type} (env : NewtonEnv V) (applyNZ : Bool)
    (tol : ℚ) (maxIter fuel iter : ℕ) (rel cur initRes : ℚ) (evalPt present : V) :
    newtonLoop env applyNZ tol maxIter (fuel + 1) iter rel cur initRes evalPt present
      = if rel ≤ tol ∨ cur ≤ newtonAbsFloor then Except.ok (evalPt, iter)
        else if maxIter ≤ iter then Except.error "Too many Newton iterations!"
        else
          let r := newtonIterate env applyNZ iter evalPt present
          let init2 := if iter == 0 then r.2 else initRes
          newtonLoop env applyNZ tol maxIter fuel (iter + 1) (r.2 / init2) r.2 init2
            r.1 present := by
  have hg : newtonLoopGuard tol rel cur = true ↔ ¬(rel ≤ tol ∨ cur ≤ newtonAbsFloor) := by
    simp [newtonLoopGuard, not_or, not_le]
  by_cases hstop : rel ≤ tol ∨ cur ≤ newtonAbsFloor
  · have hgf : newtonLoopGuard tol rel cur = false := by
      rw [← Bool.not_eq_true, hg]
      exact not_not_intro hstop
    simp [newtonLoop, hgf, hstop]
  · have hgt : newtonLoopGuard tol rel cur = true := hg.mpr hstop
    by_cases hmax : maxIter ≤ iter
    · simp [newtonLoop, hgt, hstop, hmax, not_lt.mpr hmax]
    · simp [newtonLoop, hgt, hstop, hmax, lt_of_not_le hmax]

/-- Claim C3 as stated, refuted: with a probe FGMRES oracle that reports the
budget it received, the source solve (budget `system_matrix.m() = dofU+dofP`)
differs from the claimed solve (budget `dofU`) at `dofU = 2`, `dofP = 1`. -/
theorem C3_counterexample :
    ¬ (∀ (V : Type) (g : GmresOracle V) (normV : V → ℚ) (dofU dofP : ℕ) (rhs : V),
        mpiSolveRun g normV dofU dofP rhs = solveClaimedBudgetU g normV dofU rhs) := by
  intro h
  have h2 : (Except.ok ((3 : ℕ), (0 : ℚ)) : Except String (ℕ × ℚ))
      = Except.ok ((2 : ℕ), (0 : ℚ)) := h Unit gmresProbe normProbe 2 1 ()
  simp at h2

/-- Claim C3 amended: every outer Krylov solve (both variants) uses the
flexible restarted GMRES oracle with relative tolerance `1e-8 · ‖rhs‖` and an
iteration budget equal to the TOTAL DOF count (velocity plus pressure blocks,
the row count of the full block matrix); non-convergence within that budget is
fatal, and the solve returns the outer iteration count and the final residual
value. -/
theorem C3_outer_krylov_solve {V : Type} (g : GmresOracle V) (normV : V → ℚ)
    (dofU dofP : ℕ) (rhs : V) :
    mpiSolveRun g normV dofU dofP rhs = solveClaimedTotal g normV dofU dofP rhs
      ∧ serialSolveRun g normV dofU dofP rhs = solveClaimedTotal g normV dofU dofP rhs :=
  ⟨rfl, rfl⟩

/-- Claim C6: in the Newton controller, assembly and the post-solve constraint
distribution receive the nonzero constraint set iff the step is the very first
time step and the outer iteration is 0, and after every correction is added
the nonzero constraint set is re-applied to the evaluation field. -/
theorem C6_newton_constraint_selection {V : Type} (env : NewtonEnv V)
    (t iter : ℕ) (evalPt present : V) :
    newtonIterate env (newtonRunApplyNZ t) iter evalPt present
      = (let useNZ := decide (t = 1 ∧ iter = 0)
         let rhs := env.assembleRhs useNZ evalPt present
         (env.distributeNZ (env.addV evalPt (env.solveUpdate useNZ rhs)),
          env.normV rhs)) := by
  have hb : (newtonRunApplyNZ t && iter == 0) = decide (t = 1 ∧ iter = 0) := by
    by_cases h1 : t = 1 <;> by_cases h2 : iter = 0 <;>
      simp [newtonRunApplyNZ, h1, h2]
  simp only [newtonIterate, hb]

/-- Applying the Jacobi preconditioner of a matrix to the all-ones vector
yields the reciprocal diagonal (in ℚ, out-of-range entries are 0 = 0⁻¹). -/
theorem jacobiVmult_ones (m : MatQ) (k : ℕ) :
    (jacobiVmult m (List.replicate m.length (1 : ℚ))).getD k 0
      = (entryAt m k k)⁻¹ := by
  by_cases hk : k < m.length
  · rw [jacobiVmult, List.getD_eq_getElem?_getD, List.getElem?_map,
      List.getElem?_range hk]
    simp [List.getD_eq_getElem?_getD, List.getElem?_replicate, hk, one_div]
  · have h1 : (jacobiVmult m (List.replicate m.length (1 : ℚ))).length ≤ k := by
      simp only [jacobiVmult, List.length_map, List.length_range]
      omega
    have h2 : entryAt m k k = 0 := by
      unfold entryAt
      rw [List.getD_eq_default _ _ (le_of_not_lt hk)]
      simp
    rw [List.getD_eq_default _ _ h1, h2]
    simp

/-- Claim C4: at preconditioner construction the Schur surrogate is computed
once as `B · diag(velocity mass block)⁻¹ · Bᵀ`, with the reciprocal diagonal
obtained by applying a Jacobi preconditioner of the velocity mass block to the
all-ones vector, and the sparse product reuses the preset sparsity pattern
(rebuild flag false) instead of re-deriving one. -/
theorem C4_schur_surrogate {Pat : Type} (preset fresh : Pat)
    (sysB10 sysB01 massB00 : MatQ) :
    schurAtConstruction preset fresh sysB10 sysB01 massB00
      = (preset, schurClaimed sysB10 sysB01 massB00) := by
  have hw : ∀ (k : ℕ), ((jacobiVmult massB00 (List.replicate massB00.length 1))[k]?).getD (0 : ℚ)
      = ((((massB00[k]?).getD ([] : List ℚ))[k]?).getD (0 : ℚ))⁻¹ := by
    intro k
    have h := jacobiVmult_ones massB00 k
    simpa [List.getD_eq_getElem?_getD, entryAt] using h
  unfold schurAtConstruction schurBuildCall schurFromMass mmultDiag schurClaimed
  simp [dotDiag, entryAt, hw]

/-- Assembly leaves the time-step counter unchanged. -/
theorem imexAssembleStep_timestep {M P V : Type} (env : ImexEnv M P V)
    (u a : Bool) (s : ImexState M P V) :
    (imexAssembleStep env u a s).timestep = s.timestep := by
  unfold imexAssembleStep
  split <;> rfl

/-- The pre-solve half of a step increments the time-step counter by one. -/
theorem imexStepPre_timestep {M P V : Type} (env : ImexEnv M P V)
    (s : ImexState M P V) :
    (imexStepPre env s).timestep = s.timestep + 1 := by
  unfold imexStepPre
  rw [imexAssembleStep_timestep]

/-- The post-solve half of a step leaves the time-step counter unchanged. -/
theorem imexStepPost_timestep {M P V : Type} (env : ImexEnv M P V)
    (s : ImexState M P V) :
    (imexStepPost env s).timestep = s.timestep := by
  unfold imexStepPost imexSolveStep imexRefineReset
  split
  all_goals
    dsimp only
    split <;> rfl

/-- Iterating `n` steps advances the time-step counter by `n`. -/
theorem imexRunSteps_timestep {M P V : Type} (env : ImexEnv M P V)
    (s0 : ImexState M P V) (n : ℕ) :
    (imexRunSteps env s0 n).timestep = s0.timestep + n := by
  induction n with
  | zero => rfl
  | succ n ih =>
    show (imexRunOneStep env (imexRunSteps env s0 n)).timestep = _
    unfold imexRunOneStep
    rw [imexStepPost_timestep, imexStepPre_timestep, ih]
    omega

/-- Time-step counter seen by the solve of the `(n+1)`-st step. -/
theorem imexPreState_timestep {M P V : Type} (env : ImexEnv M P V)
    (s0 : ImexState M P V) (n : ℕ) :
    (imexPreState env s0 n).timestep = s0.timestep + n + 1 := by
  unfold imexPreState
  rw [imexStepPre_timestep, imexRunSteps_timestep]

/-- When the rebuild flag for the incoming step is false, the pre-solve half
leaves both matrices unchanged. -/
theorem imexStepPre_sys_mass {M P V : Type} (env : ImexEnv M P V)
    (s : ImexState M P V) (h : imexDoAssemble (s.timestep + 1) = false) :
    (imexStepPre env s).sys = s.sys ∧ (imexStepPre env s).mass = s.mass := by
  unfold imexStepPre imexAssembleStep
  rw [h]
  exact ⟨rfl, rfl⟩

/-- When no refinement triggers at the current step, the post-solve half
leaves both matrices unchanged. -/
theorem imexStepPost_sys_mass {M P V : Type} (env : ImexEnv M P V)
    (s : ImexState M P V) (h : env.timeToRefine s.timestep = false) :
    (imexStepPost env s).sys = s.sys ∧ (imexStepPost env s).mass = s.mass := by
  unfold imexStepPost imexSolveStep
  split <;> simp [h]

/-- Claim C5 as stated, refuted: with a refinement cadence that triggers at
time step 2, `refine_mesh` resets both matrices and — since
`assemble_system = (timestep < 3)` never reassembles them — the operator used
in the solve of step 3 is the value-empty reinitialized matrix (0 in the
model), not the one built at step 2 (1 in the model). -/
theorem C5_counterexample :
    ¬ (∀ (M P V : Type) (env : ImexEnv M P V) (s0 : ImexState M P V) (n : ℕ),
        s0.timestep = 0 → 2 ≤ n →
        (imexPreState env s0 n).sys = (imexPreState env s0 1).sys
          ∧ (imexPreState env s0 n).mass = (imexPreState env s0 1).mass) := by
  intro h
  have h1 := (h ℕ Unit Unit imexEnvCex imexState0 2 rfl (by norm_num)).1
  exact absurd h1 (by decide)

/-- Claim C5 amended: assembly rebuilds the system and mass matrices exactly
on time steps 1 and 2 (`assemble_system = timestep < 3`) and leaves both
untouched for every later step, and the nonzero constraint set is selected
exactly on step 1; consequently, PROVIDED no mesh refinement triggers at
steps 2..n, the operator used in the solve of step `n+1` (for `n ≥ 2`) is
identical to the one used in the solve of step 2 — a refinement in that
window instead resets both matrices without reassembly. -/
theorem C5_imex_rebuild_schedule (M P V : Type) (env : ImexEnv M P V)
    (s0 : ImexState M P V) (n : ℕ) (h2 : 2 ≤ n) (h0 : s0.timestep = 0)
    (hr : ∀ k, 2 ≤ k → k ≤ n → env.timeToRefine k = false) :
    ((imexPreState env s0 n).sys = (imexPreState env s0 1).sys
      ∧ (imexPreState env s0 n).mass = (imexPreState env s0 1).mass)
    ∧ (∀ (u : Bool) (s : ImexState M P V),
        (imexAssembleStep env u false s).sys = s.sys
          ∧ (imexAssembleStep env u false s).mass = s.mass)
    ∧ (∀ t, imexUseNZ t = true ↔ t = 1)
    ∧ (∀ t, imexDoAssemble t = true ↔ t < 3) := by
  refine ⟨?_, ?_, ?_, ?_⟩
  · revert hr
    induction n, h2 using Nat.le_induction with
    | base =>
      intro hr
      have hpre1t : (imexPreState env s0 1).timestep = 2 := by
        rw [imexPreState_timestep, h0]
      have hpost := imexStepPost_sys_mass env (imexPreState env s0 1)
        (by rw [hpre1t]; exact hr 2 le_rfl le_rfl)
      have hXt : (imexStepPost env (imexPreState env s0 1)).timestep = 2 := by
        rw [imexStepPost_timestep, hpre1t]
      have hsp := imexStepPre_sys_mass env (imexStepPost env (imexPreState env s0 1))
        (by rw [hXt]; rfl)
      have hpre2 : imexPreState env s0 2
          = imexStepPre env (imexStepPost env (imexPreState env s0 1)) := rfl
      rw [hpre2]
      exact ⟨hsp.1.trans hpost.1, hsp.2.trans hpost.2⟩
    | succ n hn ih =>
      intro hr
      have ihr := ih (fun k hk1 hk2 => hr k hk1 (Nat.le_succ_of_le hk2))
      have hprent : (imexPreState env s0 n).timestep = n + 1 := by
        rw [imexPreState_timestep, h0]
        omega
      have hpost := imexStepPost_sys_mass env (imexPreState env s0 n)
        (by rw [hprent]; exact hr (n + 1) (by omega) (by omega))
      have hXt : (imexStepPost env (imexPreState env s0 n)).timestep = n + 1 := by
        rw [imexStepPost_timestep, hprent]
      have hsp := imexStepPre_sys_mass env (imexStepPost env (imexPreState env s0 n))
        (by rw [hXt]; simp [imexDoAssemble]; omega)
      have hpren : imexPreState env s0 (n + 1)
          = imexStepPre env (imexStepPost env (imexPreState env s0 n)) := rfl
      rw [hpren]
      exact ⟨(hsp.1.trans hpost.1).trans ihr.1, (hsp.2.trans hpost.2).trans ihr.2⟩
  · intro u s
    unfold imexAssembleStep
    exact ⟨rfl, rfl⟩
  · intro t
    simp [imexUseNZ]
  · intro t
    simp [imexDoAssemble]

/-- Witness for the amended claim C5 at a concrete refinement-free run. -/
theorem C5_witness :
    ((2 : ℕ) ≤ 2 ∧ imexState0.timestep = 0
        ∧ (∀ k, 2 ≤ k → k ≤ 2 → imexEnvW.timeToRefine k = false))
      ∧ ((imexPreState imexEnvW imexState0 2).sys = (imexPreState imexEnvW imexState0 1).sys
          ∧ (imexPreState imexEnvW imexState0 2).mass
              = (imexPreState imexEnvW imexState0 1).mass) :=
  ⟨⟨le_rfl, rfl, fun _ _ _ => rfl⟩,
   (C5_imex_rebuild_schedule ℕ Unit Unit imexEnvW imexState0 2 le_rfl rfl
      (fun _ _ _ => rfl)).1⟩

/-- Claim C7: `refine_mesh` performs, in order, snapshot → topology change →
rebuild of DOF layout, both constraint sets and all matrices from scratch →
interpolation of the snapshot onto the new layout → application of the new
nonzero constraint set; on return the present solution equals that
constrained interpolant. -/
theorem C7_refine_orchestration {Msh Dof Cst Mats Snap V E : Type}
    (env : RefineEnv Msh Dof Cst Mats Snap V E) (minL maxL : ℕ)
    (s : NSState Msh Dof Cst Mats V) :
    refineMeshRun env minL maxL s = refineMeshClaimed env minL maxL s
      ∧ (refineMeshRun env minL maxL s).present
          = env.distributeCst
              (env.makeNZ (env.makeDofs (env.executeChange
                (env.flagClear s.mesh (env.estimate s.dofs s.present) minL maxL))))
              (env.interpolateTo (env.prepareSnapshot s.present)
                (env.makeDofs (env.executeChange
                  (env.flagClear s.mesh (env.estimate s.dofs s.present) minL maxL)))) :=
  ⟨rfl, rfl⟩

/-- Every cell's level is bounded by the finest level of its mesh. -/
theorem level_le_meshMaxLevel {c : MCell} {mesh : MeshC} (h : c ∈ mesh) :
    c.level ≤ meshMaxLevel mesh := by
  induction mesh with
  | nil => cases h
  | cons d rest ih =>
    rcases List.mem_cons.mp h with rfl | h
    · exact le_max_left _ _
    · exact le_trans (ih h) (le_max_right _ _)

/-- Installing flags does not change cell levels: every flagged cell
corresponds to an original cell of the same level. -/
theorem mem_applyFlagPairs {c : MCell} {mesh : MeshC} {fl : List (Bool × Bool)}
    (h : c ∈ applyFlagPairs mesh fl) : ∃ d ∈ mesh, c.level = d.level := by
  induction mesh generalizing fl with
  | nil => simp [applyFlagPairs] at h
  | cons d rest ih =>
    cases fl with
    | nil => simp [applyFlagPairs] at h
    | cons p ps =>
      rcases List.mem_cons.mp h with rfl | h
      · exact ⟨d, List.mem_cons_self d rest, rfl⟩
      · obtain ⟨d', hd', he⟩ := ih h
        exact ⟨d', List.mem_cons_of_mem d hd', he⟩

/-- Clearing a refine flag never changes the level. -/
theorem clearRefCell_level (maxL : ℕ) (c : MCell) :
    (clearRefCell maxL c).level = c.level := by
  unfold clearRefCell
  split <;> rfl

/-- Clearing a coarsen flag never changes the level. -/
theorem clearCoarCell_level (minL : ℕ) (c : MCell) :
    (clearCoarCell minL c).level = c.level := by
  unfold clearCoarCell
  split <;> rfl

/-- Clearing a coarsen flag never changes the refine flag. -/
theorem clearCoarCell_refFlag (minL : ℕ) (c : MCell) :
    (clearCoarCell minL c).refFlag = c.refFlag := by
  unfold clearCoarCell
  split <;> rfl

/-- A surviving refine flag certifies the cell was below the max level. -/
theorem clearRefCell_refFlag_true {maxL : ℕ} {c : MCell}
    (h : (clearRefCell maxL c).refFlag = true) : c.level < maxL := by
  unfold clearRefCell at h
  by_cases hle : maxL ≤ c.level
  · rw [if_pos hle] at h
    cases h
  · exact lt_of_not_le hle

/-- A surviving coarsen flag certifies the cell was not at the min level. -/
theorem clearCoarCell_coarFlag_true {minL : ℕ} {c : MCell}
    (h : (clearCoarCell minL c).coarFlag = true) : c.level ≠ minL := by
  unfold clearCoarCell at h
  by_cases heq : c.level = minL
  · rw [if_pos heq] at h
    cases h
  · exact heq

/-- Combined properties of the flagging stage: levels are preserved and within
the configured bounds, a surviving refine flag implies level < max, a
surviving coarsen flag implies level > min. -/
theorem refineFlagPhase_cellProps (flagger : List ℚ → ℚ → ℚ → List (Bool × Bool))
    (errs : List ℚ) (minL maxL : ℕ) (mesh : MeshC)
    (h : ∀ c ∈ mesh, minL ≤ c.level ∧ c.level ≤ maxL) :
    ∀ c ∈ refineFlagPhase flagger errs minL maxL mesh,
      (minL ≤ c.level ∧ c.level ≤ maxL)
        ∧ (c.refFlag = true → c.level < maxL)
        ∧ (c.coarFlag = true → minL < c.level) := by
  intro c hc
  unfold refineFlagPhase clearCoarsenAtLevel at hc
  obtain ⟨b, hb, hcb⟩ := List.mem_map.mp hc
  subst hcb
  unfold clearRefineAtOrAbove at hb
  by_cases hg : maxL < meshNLevels (applyFlagPairs mesh (flagger errs 0.6 0.4))
  · rw [if_pos hg] at hb
    obtain ⟨a, ha, hba⟩ := List.mem_map.mp hb
    subst hba
    obtain ⟨d, hd, hlev⟩ := mem_applyFlagPairs ha
    have hbd := h d hd
    have hl1 : (clearCoarCell minL (clearRefCell maxL a)).level = a.level := by
      rw [clearCoarCell_level, clearRefCell_level]
    refine ⟨⟨?_, ?_⟩, ?_, ?_⟩
    · rw [hl1, hlev]
      exact hbd.1
    · rw [hl1, hlev]
      exact hbd.2
    · intro hrf
      rw [clearCoarCell_refFlag] at hrf
      rw [hl1]
      exact clearRefCell_refFlag_true hrf
    · intro hcf
      have hne := clearCoarCell_coarFlag_true hcf
      rw [clearRefCell_level] at hne
      rw [hl1]
      have : minL ≤ a.level := by rw [hlev]; exact hbd.1
      omega
  · rw [if_neg hg] at hb
    obtain ⟨d, hd, hlev⟩ := mem_applyFlagPairs hb
    have hbd := h d hd
    have hlt : b.level < maxL := by
      have h1 : b.level ≤ meshMaxLevel (applyFlagPairs mesh (flagger errs 0.6 0.4)) :=
        level_le_meshMaxLevel hb
      have h2 : meshNLevels (applyFlagPairs mesh (flagger errs 0.6 0.4)) ≤ maxL :=
        not_lt.mp hg
      unfold meshNLevels at h2
      omega
    have hl1 : (clearCoarCell minL b).level = b.level := clearCoarCell_level minL b
    refine ⟨⟨?_, ?_⟩, ?_, ?_⟩
    · rw [hl1, hlev]
      exact hbd.1
    · rw [hl1, hlev]
      exact hbd.2
    · intro _
      rw [hl1]
      exact hlt
    · intro hcf
      have hne := clearCoarCell_coarFlag_true hcf
      rw [hl1]
      have : minL ≤ b.level := by rw [hlev]; exact hbd.1
      omega

/-- Claim C8: on every refinement pass, cells are flagged by the library
utility with refine fraction 0.6 and coarsen fraction 0.4, then no cell at or
above the maximum grid level keeps a refine flag and no cell at the minimum
grid level keeps a coarsen flag, so that executing the coarsening/refinement
keeps every active cell's level within `[minL, maxL]`. -/
theorem C8_refinement_fractions_and_levels
    (flagger : List ℚ → ℚ → ℚ → List (Bool × Bool)) (errs : List ℚ)
    (minL maxL : ℕ) (mesh : MeshC)
    (h : ∀ c ∈ mesh, minL ≤ c.level ∧ c.level ≤ maxL) :
    refineFlagPhase flagger errs minL maxL mesh
        = clearCoarsenAtLevel minL (clearRefineAtOrAbove maxL
            (applyFlagPairs mesh (flagger errs (6 / 10) (4 / 10))))
      ∧ (∀ c ∈ refineFlagPhase flagger errs minL maxL mesh,
           (maxL ≤ c.level → c.refFlag = false)
             ∧ (c.level = minL → c.coarFlag = false))
      ∧ (∀ c ∈ execFlags (refineFlagPhase flagger errs minL maxL mesh),
           minL ≤ c.level ∧ c.level ≤ maxL) := by
  refine ⟨?_, ?_, ?_⟩
  · have h6 : (0.6 : ℚ) = 6 / 10 := by norm_num
    have h4 : (0.4 : ℚ) = 4 / 10 := by norm_num
    rw [refineFlagPhase, h6, h4]
  · intro c hc
    have hp := refineFlagPhase_cellProps flagger errs minL maxL mesh h c hc
    constructor
    · intro hle
      cases hrf : c.refFlag
      · rfl
      · exact absurd (hp.2.1 hrf) (not_lt.mpr hle)
    · intro heq
      cases hcf : c.coarFlag
      · rfl
      · have := hp.2.2 hcf
        omega
  · intro c' hc'
    unfold execFlags at hc'
    obtain ⟨c, hc, hcc⟩ := List.mem_map.mp hc'
    subst hcc
    have hp := refineFlagPhase_cellProps flagger errs minL maxL mesh h c hc
    unfold execCell
    split_ifs with h1 h2
    · have := hp.2.1 h1
      have := hp.1
      constructor
      · show minL ≤ c.level + 1
        omega
      · show c.level + 1 ≤ maxL
        omega
    · simp only [Bool.and_eq_true, decide_eq_true_eq] at h2
      have hminlt := hp.2.2 h2.1
      have := hp.1
      constructor
      · show minL ≤ c.level - 1
        omega
      · show c.level - 1 ≤ maxL
        omega
    · exact hp.1

/-- Witness for claim C8 at a concrete two-cell mesh with bounds `[1, 3]`. -/
theorem C8_witness :
    (∀ c ∈ meshW, 1 ≤ c.level ∧ c.level ≤ 3)
      ∧ (∀ c ∈ execFlags (refineFlagPhase flaggerW [1, 2] 1 3 meshW),
           1 ≤ c.level ∧ c.level ≤ 3) :=
  ⟨by decide,
   (C8_refinement_fractions_and_levels flaggerW [1, 2] 1 3 meshW (by decide)).2.2⟩

/-- Validity of one boundary-condition flag: the `switch` produces a mask
exactly for flags 1..7. -/
theorem maskOfFlag_ok_iff (dim : ℕ) (f : ℕ) (v : List ℚ) :
    (∃ p, maskOfFlag dim f v = Except.ok p) ↔ (1 ≤ f ∧ f ≤ 7) := by
  unfold maskOfFlag
  split_ifs with h1 h2 h3 h4 h5 h6 h7
  all_goals simp_all
  all_goals omega

/-- Processing the configured entries succeeds exactly when every flag is in
1..7. -/
theorem constraintEntries_ok_iff (dim : ℕ) (bcs : List BCEntry) :
    (∃ l, constraintEntries dim bcs = Except.ok l)
      ↔ ∀ e ∈ bcs, 1 ≤ e.flag ∧ e.flag ≤ 7 := by
  induction bcs with
  | nil => simp [constraintEntries]
  | cons e rest ih =>
    constructor
    · rintro ⟨l, hl⟩
      rw [constraintEntries] at hl
      cases hm : maskOfFlag dim e.flag e.value with
      | error s =>
        rw [hm] at hl
        simp at hl
      | ok p =>
        rw [hm] at hl
        cases hr : constraintEntries dim rest with
        | error s =>
          rw [hr] at hl
          simp at hl
        | ok l2 =>
          intro e' he'
          rcases List.mem_cons.mp he' with rfl | he'
          · exact (maskOfFlag_ok_iff dim e'.flag e'.value).mp ⟨p, hm⟩
          · exact (ih.mp ⟨l2, hr⟩) e' he'
    · intro hall
      obtain ⟨p, hp⟩ := (maskOfFlag_ok_iff dim e.flag e.value).mpr
        (hall e (List.mem_cons_self e rest))
      obtain ⟨l2, hl2⟩ := ih.mpr (fun e' he' => hall e' (List.mem_cons_of_mem e he'))
      refine ⟨(e.bid, p) :: l2, ?_⟩
      rw [constraintEntries, hp, hl2]

/-- Claim C9: `make_constraints` succeeds — reaching `close()` on both
constraint sets — iff every configured Dirichlet component-mask flag is one of
1..7 (x, y, xy, z, xz, yz, xyz); any other flag aborts with the fatal
"Unrecogonized component flag!" before the constraint sets are closed. -/
theorem C9_bc_flag_validation (dim : ℕ) (bcs : List BCEntry) :
    (∃ c, makeConstraintsRun dim bcs = Except.ok c ∧ c.closed = true)
      ↔ ∀ e ∈ bcs, 1 ≤ e.flag ∧ e.flag ≤ 7 := by
  rw [← constraintEntries_ok_iff dim bcs]
  constructor
  · rintro ⟨c, hc, _⟩
    cases hr : constraintEntries dim bcs with
    | error s =>
      unfold makeConstraintsRun at hc
      rw [hr] at hc
      simp at hc
    | ok l => exact ⟨l, rfl⟩
  · rintro ⟨l, hl⟩
    refine ⟨{ nzOps := l, zOps := l.map (fun x => (x.1, x.2.1)), closed := true }, ?_, rfl⟩
    unfold makeConstraintsRun
    rw [hl]

/-- Witness for claim C9 at a concrete configuration exercising all seven
valid flags. -/
theorem C9_witness :
    ∃ c, makeConstraintsRun 2 bcsW = Except.ok c ∧ c.closed = true :=
  (C9_bc_flag_validation 2 bcsW).mpr (by decide)

/-- Folding a function that only touches the third component keeps the first
two components. -/
theorem foldl_third {MatT V Cid : Type} (g : V → Cid → V) (l : List Cid)
    (a b : MatT) (r : V) :
    l.foldl (fun acc c => (acc.1, acc.2.1, g acc.2.2 c)) (a, b, r)
      = (a, b, l.foldl g r) := by
  induction l generalizing r with
  | nil => rfl
  | cons c cs ih => exact ih (g r c)

/-- Folding a step that routes the first and third components through `f` and
the second through `g` splits into the two independent folds. -/
theorem foldl_split {MatT V Cid : Type}
    (f : MatT × V → Cid → MatT × V) (g : MatT → Cid → MatT)
    (l : List Cid) (a b : MatT) (r : V) :
    l.foldl (fun acc c =>
        ((f (acc.1, acc.2.2) c).1, g acc.2.1 c, (f (acc.1, acc.2.2) c).2)) (a, b, r)
      = ((l.foldl f (a, r)).1, l.foldl g b, (l.foldl f (a, r)).2) := by
  induction l generalizing a b r with
  | nil => rfl
  | cons c cs ih => exact ih (f (a, r) c).1 (g b c) (f (a, r) c).2

/-- Claim C10: on every time step the right-hand side is reset to zero and
fully reassembled from the per-cell local right-hand sides computed at the
current present solution — in the suppressed case (`assemble_system` false)
through the rhs-only constraint distributions, leaving the system matrix and
mass matrix untouched; in the rebuild case (`assemble_system` true) through
the matrix+rhs distributions starting from the zeroed matrices and the zeroed
rhs, with the mass matrix accumulated by its own distributions. -/
theorem C10_rhs_only_assembly {MatT V L Cid : Type} (env : AsmEnv MatT V L Cid)
    (useNZ : Bool) (present : V) (sys mass : MatT) (rhs : V) :
    imexAssembleCells env useNZ false present sys mass rhs
      = (sys, mass,
         env.cells.foldl
           (fun r c => env.distribRhsOnly useNZ (env.localRhsAt c present) r)
           (env.zeroVecLike rhs))
    ∧ imexAssembleCells env useNZ true present sys mass rhs
      = ((env.cells.foldl
            (fun p c => env.distribMatRhs useNZ (env.localMatAt c present)
              (env.localRhsAt c present) p)
            (env.zeroMatLike sys, env.zeroVecLike rhs)).1,
         env.cells.foldl
           (fun m c => env.distribMass useNZ (env.localMassAt c) m)
           (env.zeroMatLike mass),
         (env.cells.foldl
            (fun p c => env.distribMatRhs useNZ (env.localMatAt c present)
              (env.localRhsAt c present) p)
            (env.zeroMatLike sys, env.zeroVecLike rhs)).2) := by
  constructor
  · unfold imexAssembleCells
    exact foldl_third
      (fun r c => env.distribRhsOnly useNZ (env.localRhsAt c present) r)
      env.cells sys mass (env.zeroVecLike rhs)
  · unfold imexAssembleCells
    exact foldl_split
      (fun p c => env.distribMatRhs useNZ (env.localMatAt c present)
        (env.localRhsAt c present) p)
      (fun m c => env.distribMass useNZ (env.localMassAt c) m)
      env.cells (env.zeroMatLike sys) (env.zeroMatLike mass) (env.zeroVecLike rhs)

end OpenIFEM
